import Mathlib

/-!
Verification of the PIDL wrapper core of the Swish repository
(swish::shell_folder::pidl, file Pidl.h), together with the related
StorageMedium wrapper.

A raw PIDL is modelled as an optional list of bytes (each a natural number);
a null pointer is modelled by none.  The record walk of the source reads a
two-byte little-endian length field (mkid.cb) at the start of each record and
advances by that many bytes (skip/next).  The raw algorithms size, clone and
combine are translated directly from the source, with the while loop of size
given explicit fuel; for a buffer of length n, fuel n + 1 always suffices
because every non-terminator step drops at least one byte.

Well-formed buffers are described by serialising a list of record payloads:
each record contributes its two cb bytes followed by its payload, and the
buffer ends with the two-byte terminator record whose cb is zero, possibly
followed by junk bytes (the source documents that allocated blocks may be
larger than the list they hold).
-/

namespace SwishPidl

/-- Byte list standing for the memory a raw PIDL points at. -/
abbrev Bytes := List Nat

/-- An optional buffer: none models a NULL PIDL pointer. -/
abbrev Buf := Option Bytes

/-- Read the two-byte little-endian length field (mkid.cb) at offset off.
Reading past the end of the buffer yields 0. -/
def readCb (b : Bytes) (off : Nat) : Nat :=
  b.getD off 0 + 256 * b.getD (off + 1) 0

/-- The loop of raw_pidl::size, translated with fuel: starting from the
current record, if the cb field is zero return the terminator size 2 (the
source initialises s to sizeof cb and stops), else add cb and advance to the
next record by dropping cb bytes (raw_pidl::next is skip by cb bytes). -/
def sizeWalk : Nat → Bytes → Nat
  | 0, _ => 2
  | fuel + 1, b =>
    let cb := readCb b 0
    if cb = 0 then 2 else cb + sizeWalk fuel (b.drop cb)

/-- raw_pidl::size: 0 for a NULL pidl, otherwise the record walk.  The fuel
length + 1 is enough for every buffer the walk terminates on, because each
non-terminator step drops at least one byte. -/
def size (b : Buf) : Nat :=
  match b with
  | none => 0
  | some bs => sizeWalk (bs.length + 1) bs

/-- raw_pidl::clone: NULL maps to NULL; otherwise allocate size b bytes and
memcpy that many bytes from the source buffer. -/
def clone (b : Buf) : Buf :=
  match b with
  | none => none
  | some bs => some (bs.take (size (some bs)))

/-- memcpy of src into dest at a byte offset: the bytes of dest before off,
then src, then the bytes of dest after off + length of src. -/
def writeBytes (dest : Bytes) (off : Nat) (src : Bytes) : Bytes :=
  dest.take off ++ src ++ dest.drop (off + src.length)

/-- raw_pidl::combine on buffers: NULL if both operands are NULL; otherwise
allocate lhs_len + rhs_len bytes, minus 2 when both lengths are nonzero,
memcpy lhs_len bytes of lhs to offset 0 and rhs_len bytes of rhs to offset
lhs_len - 2 (or 0 when lhs_len is 0).  Freshly allocated memory is modelled
as zero bytes. -/
def combine (lhs rhs : Buf) : Buf :=
  if lhs = none ∧ rhs = none then none
  else
    let lhsLen := size lhs
    let rhsLen := size rhs
    let len := if lhsLen ≠ 0 ∧ rhsLen ≠ 0 then lhsLen + rhsLen - 2
               else lhsLen + rhsLen
    let mem0 := List.replicate len 0
    let mem1 := writeBytes mem0 0 ((lhs.getD []).take lhsLen)
    let mem2 := writeBytes mem1 (lhsLen - if lhsLen ≠ 0 then 2 else 0)
                  ((rhs.getD []).take rhsLen)
    some mem2

/-! ## Well-formed buffers: serialisation of record payload lists -/

/-- The length field of a record holding payload p: the payload bytes plus
the two bytes of the field itself. -/
def cbOf (p : Bytes) : Nat := p.length + 2

/-- The byte encoding of one non-terminator record: the two little-endian cb
bytes followed by the payload. -/
def encRecord (p : Bytes) : Bytes :=
  cbOf p % 256 :: cbOf p / 256 :: p

/-- The bytes of all non-terminator records of a list, in order. -/
def serInit (A : List Bytes) : Bytes :=
  (A.map encRecord).flatten

/-- The full byte image of an item-identifier list with record payloads A:
all records followed by the two-byte terminator. -/
def serialize (A : List Bytes) : Bytes :=
  serInit A ++ [0, 0]

/-- A payload list is valid when every record is small enough for its length
to fit the two-byte field and every payload byte is a byte value. -/
def ValidRecords (A : List Bytes) : Prop :=
  ∀ p ∈ A, p.length + 2 < 65536 ∧ ∀ x ∈ p, x < 256

instance : DecidablePred ValidRecords := fun A =>
  inferInstanceAs (Decidable (∀ p ∈ A, _ ∧ _))

/-! ## Basic facts about serialisation -/

theorem encRecord_length (p : Bytes) : (encRecord p).length = cbOf p := by
  simp [encRecord, cbOf]

theorem serInit_append (A B : List Bytes) :
    serInit (A ++ B) = serInit A ++ serInit B := by
  simp [serInit]

theorem serialize_append (A B : List Bytes) :
    serialize (A ++ B) = serInit A ++ serialize B := by
  simp [serialize, serInit_append]

theorem serInit_length (A : List Bytes) :
    (serInit A).length = (A.map cbOf).sum := by
  induction A with
  | nil => simp [serInit]
  | cons p rest ih =>
    simp [serInit, List.flatten_cons, encRecord_length] at *
    simp [ih, encRecord_length]

theorem serialize_length (A : List Bytes) :
    (serialize A).length = (A.map cbOf).sum + 2 := by
  simp [serialize, serInit_length]

theorem readCb_encRecord (p : Bytes) (rest : Bytes) :
    readCb (encRecord p ++ rest) 0 = cbOf p := by
  simp [readCb, encRecord, List.getD]
  omega

/-- Dropping the cb bytes of a record from its encoding reaches the rest. -/
theorem drop_encRecord (p : Bytes) (rest : Bytes) :
    (encRecord p ++ rest).drop (cbOf p) = rest := by
  have h : (encRecord p).length = cbOf p := encRecord_length p
  rw [← h, List.drop_left]

/-- The record walk over a serialised buffer, with any junk after the
terminator, computes the byte length of the serialised image whenever the
fuel exceeds the number of records.  The junk is never read. -/
theorem sizeWalk_serialize (A : List Bytes) (hA : ValidRecords A) :
    ∀ junk fuel, A.length < fuel →
      sizeWalk fuel (serialize A ++ junk) = (serialize A).length := by
  induction A with
  | nil =>
    intro junk fuel hf
    match fuel, hf with
    | fuel + 1, _ =>
      simp [sizeWalk, serialize, serInit, readCb, List.getD]
  | cons p rest ih =>
    intro junk fuel hf
    match fuel, hf with
    | fuel + 1, hf =>
      have hrest : ValidRecords rest := fun q hq => hA q (by simp [hq])
      have hser : serialize (p :: rest) = encRecord p ++ serialize rest := by
        simp [serialize, serInit, List.flatten_cons]
      rw [hser]
      have hcb : readCb ((encRecord p ++ serialize rest) ++ junk) 0 = cbOf p := by
        rw [List.append_assoc]
        exact readCb_encRecord p _
      have hcbne : cbOf p ≠ 0 := by simp [cbOf]
      have hdrop : ((encRecord p ++ serialize rest) ++ junk).drop (cbOf p)
          = serialize rest ++ junk := by
        rw [List.append_assoc]
        exact drop_encRecord p _
      simp only [sizeWalk, hcb, hcbne, if_neg hcbne, hdrop]
      rw [ih hrest junk fuel (by simpa using hf)]
      simp [List.length_append, encRecord_length]

/-- Each record contributes at least two bytes, so the serialised image is
longer than the record count. -/
theorem length_lt_serialize_length (A : List Bytes) :
    A.length < (serialize A).length := by
  induction A with
  | nil => simp [serialize, serInit]
  | cons p rest ih =>
    have : serialize (p :: rest) = encRecord p ++ serialize rest := by
      simp [serialize, serInit, List.flatten_cons]
    rw [this]
    simp only [List.length_cons, List.length_append, encRecord_length]
    have : 1 ≤ cbOf p := by simp [cbOf]
    omega

/-- size of a well-formed buffer (serialised records plus junk) is the byte
length of the serialised image; the junk past the terminator is not counted. -/
theorem size_serialize (A : List Bytes) (hA : ValidRecords A) (junk : Bytes) :
    size (some (serialize A ++ junk)) = (serialize A).length := by
  have hlen : A.length < (serialize A ++ junk).length + 1 := by
    have := length_lt_serialize_length A
    simp [List.length_append]
    omega
  simpa [size] using sizeWalk_serialize A hA junk _ hlen

/-- The serialised image is at least the two terminator bytes long. -/
theorem two_le_serialize_length (A : List Bytes) :
    2 ≤ (serialize A).length := by
  simp [serialize_length]

/-- clone of a well-formed buffer copies exactly the serialised image and
drops any junk past the terminator. -/
theorem clone_serialize (A : List Bytes) (hA : ValidRecords A) (junk : Bytes) :
    clone (some (serialize A ++ junk)) = some (serialize A) := by
  simp only [clone, size_serialize A hA junk]
  rw [List.take_left]

/-- Taking all but the final two bytes of a serialised image leaves the
non-terminator records. -/
theorem take_serialize_sub_two (A : List Bytes) :
    (serialize A).take ((serialize A).length - 2) = serInit A := by
  have h : (serialize A).length - 2 = (serInit A).length := by
    simp [serialize, List.length_append]
  rw [h, serialize]
  exact List.take_left _ _

/-- The central combine computation on well-formed buffers: the result is
the serialisation of the two payload lists appended, for any junk bytes that
may trail either operand. -/
theorem combine_serialize (A B : List Bytes)
    (hA : ValidRecords A) (hB : ValidRecords B) (jA jB : Bytes) :
    combine (some (serialize A ++ jA)) (some (serialize B ++ jB))
      = some (serialize (A ++ B)) := by
  have hsA := size_serialize A hA jA
  have hsB := size_serialize B hB jB
  have h2A := two_le_serialize_length A
  have h2B := two_le_serialize_length B
  have hAne : (serialize A).length ≠ 0 := by omega
  have hBne : (serialize B).length ≠ 0 := by omega
  simp only [combine, hsA, hsB, Option.getD_some]
  rw [if_neg (by simp)]
  rw [if_pos (show (serialize A).length ≠ 0 ∧ (serialize B).length ≠ 0 from
    ⟨hAne, hBne⟩)]
  rw [if_pos hAne]
  rw [List.take_left, List.take_left]
  apply congrArg
  simp only [writeBytes, List.take_zero, List.nil_append, List.drop_zero,
    Nat.zero_add, List.drop_replicate]
  rw [List.take_append_eq_append_take]
  have hz : (serialize A).length - 2 - (serialize A).length = 0 := by omega
  rw [hz, List.take_zero, List.append_nil, take_serialize_sub_two]
  rw [List.drop_eq_nil_of_le (by simp [List.length_append]; omega)]
  rw [List.append_nil, serialize_append]

/-- combine with a NULL right operand copies the left buffer, up to its own
size, into fresh memory: the result is the serialised image of the left
operand. -/
theorem combine_rhs_null (A : List Bytes) (hA : ValidRecords A) (jA : Bytes) :
    combine (some (serialize A ++ jA)) none = some (serialize A) := by
  have hsA := size_serialize A hA jA
  have h2A := two_le_serialize_length A
  have hAne : (serialize A).length ≠ 0 := by omega
  simp only [combine, hsA, Option.getD_some]
  rw [if_neg (by simp)]
  simp only [size, List.take_nil, Option.getD_none]
  rw [if_neg (by simp)]
  rw [if_pos hAne]
  simp only [writeBytes, List.take_zero, List.nil_append, List.drop_zero,
    Nat.zero_add, Nat.add_zero, List.drop_replicate, Nat.sub_self,
    List.replicate_zero, List.append_nil]
  rw [List.take_left]
  simp [List.take_append_drop]

/-- combine with a NULL left operand copies the right buffer, up to its own
size, into fresh memory. -/
theorem combine_lhs_null (B : List Bytes) (hB : ValidRecords B) (jB : Bytes) :
    combine none (some (serialize B ++ jB)) = some (serialize B) := by
  have hsB := size_serialize B hB jB
  have h2B := two_le_serialize_length B
  simp only [combine, hsB, Option.getD_some]
  rw [if_neg (by simp)]
  simp only [size, List.take_nil, Option.getD_none]
  rw [if_neg (by simp)]
  rw [if_neg (by simp)]
  simp only [writeBytes, List.take_zero, List.nil_append, List.drop_zero,
    Nat.zero_add, Nat.sub_zero, List.drop_replicate, List.take_nil]
  rw [List.take_left]
  simp

/-- The empty payload list is valid. -/
theorem validRecords_nil : ValidRecords [] := by
  intro p hp
  cases hp

/-! ## Claim theorems about size, clone and combine -/

/-- C3: size returns 0 on a NULL buffer; on a well-formed non-null buffer it
returns the sum of the record length fields plus the terminator bytes, the
result does not depend on anything past the terminator (the walk stops
there), and the record the walk stops at has a zero length field. -/
theorem size_spec :
    size none = 0 ∧
    ∀ (A : List Bytes), ValidRecords A → ∀ junk : Bytes,
      size (some (serialize A ++ junk)) = (A.map cbOf).sum + 2 ∧
      size (some (serialize A ++ junk)) = size (some (serialize A)) ∧
      readCb ((serialize A ++ junk).drop ((A.map cbOf).sum)) 0 = 0 := by
  refine ⟨rfl, ?_⟩
  intro A hA junk
  have h1 := size_serialize A hA junk
  have h2 := size_serialize A hA []
  refine ⟨by rw [h1, serialize_length], by rw [h1]; rw [List.append_nil] at h2; rw [h2], ?_⟩
  have hdrop : (serialize A ++ junk).drop ((A.map cbOf).sum)
      = [0, 0] ++ junk := by
    rw [serialize, List.append_assoc, ← serInit_length, List.drop_left]
  rw [hdrop]
  simp [readCb, List.getD]

/-- Witness for C3 at a concrete two-record buffer with junk. -/
theorem size_spec_witness :
    ValidRecords [[7], [8, 9]] ∧
      (size (some (serialize [[7], [8, 9]] ++ [5])) = ([[7], [8, 9]].map cbOf).sum + 2 ∧
       size (some (serialize [[7], [8, 9]] ++ [5])) = size (some (serialize [[7], [8, 9]])) ∧
       readCb ((serialize [[7], [8, 9]] ++ [5]).drop (([[7], [8, 9]].map cbOf).sum)) 0 = 0) :=
  ⟨by decide, size_spec.2 [[7], [8, 9]] (by decide) [5]⟩

/-- C6: clone maps NULL to NULL; on a well-formed non-null buffer it returns
a buffer of exactly size bytes whose contents are the first size bytes of
the original (the allocator only affects which pool the copy lives in, not
its bytes). -/
theorem clone_spec :
    clone none = none ∧
    ∀ (A : List Bytes), ValidRecords A → ∀ junk : Bytes,
      clone (some (serialize A ++ junk)) = some (serialize A) ∧
      (serialize A).length = size (some (serialize A ++ junk)) ∧
      serialize A = (serialize A ++ junk).take
        (size (some (serialize A ++ junk))) := by
  refine ⟨rfl, ?_⟩
  intro A hA junk
  have hs := size_serialize A hA junk
  refine ⟨clone_serialize A hA junk, by rw [hs], ?_⟩
  rw [hs, List.take_left]

/-- Witness for C6 at a concrete one-record buffer with junk. -/
theorem clone_spec_witness :
    ValidRecords [[3, 4]] ∧
      (clone (some (serialize [[3, 4]] ++ [9, 9])) = some (serialize [[3, 4]]) ∧
       (serialize [[3, 4]]).length = size (some (serialize [[3, 4]] ++ [9, 9])) ∧
       serialize [[3, 4]] = (serialize [[3, 4]] ++ [9, 9]).take
         (size (some (serialize [[3, 4]] ++ [9, 9])))) :=
  ⟨by decide, clone_spec.2 [[3, 4]] (by decide) [9, 9]⟩

/-- C1: combining two non-null, non-empty well-formed buffers yields the
serialisation of the record lists appended, whose byte length is the two
sizes minus the elided left terminator, and whose bytes are the bytes of
the left operand up to offset size lhs minus 2 followed by all size rhs
bytes of the right operand, leaving exactly the terminator of the right
operand. -/
theorem combine_records_spec :
    ∀ (A B : List Bytes) (jA jB : Bytes),
      ValidRecords A → ValidRecords B → A ≠ [] → B ≠ [] →
      combine (some (serialize A ++ jA)) (some (serialize B ++ jB))
          = some (serialize (A ++ B)) ∧
      (serialize (A ++ B)).length
          = size (some (serialize A ++ jA)) + size (some (serialize B ++ jB)) - 2 ∧
      serialize (A ++ B)
          = (serialize A).take (size (some (serialize A ++ jA)) - 2)
            ++ serialize B := by
  intro A B jA jB hA hB _ _
  have hsA := size_serialize A hA jA
  have hsB := size_serialize B hB jB
  refine ⟨combine_serialize A B hA hB jA jB, ?_, ?_⟩
  · rw [hsA, hsB, serialize_length, serialize_length, serialize_length,
      List.map_append, List.sum_append]
    omega
  · rw [hsA, take_serialize_sub_two, serialize_append]

/-- Witness for C1 at concrete two-record and one-record operands. -/
theorem combine_records_spec_witness :
    (ValidRecords [[1], [2]] ∧ ValidRecords [[3]]) ∧
      (combine (some (serialize [[1], [2]] ++ [])) (some (serialize [[3]] ++ []))
          = some (serialize ([[1], [2]] ++ [[3]])) ∧
       (serialize ([[1], [2]] ++ [[3]])).length
          = size (some (serialize [[1], [2]] ++ [])) + size (some (serialize [[3]] ++ [])) - 2 ∧
       serialize ([[1], [2]] ++ [[3]])
          = (serialize [[1], [2]]).take (size (some (serialize [[1], [2]] ++ [])) - 2)
            ++ serialize [[3]]) :=
  ⟨⟨by decide, by decide⟩,
    combine_records_spec [[1], [2]] [[3]] [] [] (by decide) (by decide)
      (by decide) (by decide)⟩

/-- C2: NULL and empty buffers are identities for combine up to cloning:
both NULL yields NULL; a NULL or empty operand on either side yields a
buffer with the bytes of the clone of the other operand. -/
theorem combine_identity_spec :
    combine none none = none ∧
    ∀ (A : List Bytes), ValidRecords A → ∀ junk jE : Bytes,
      combine (some (serialize A ++ junk)) none
          = clone (some (serialize A ++ junk)) ∧
      combine (some (serialize A ++ junk)) (some (serialize [] ++ jE))
          = clone (some (serialize A ++ junk)) ∧
      combine none (some (serialize A ++ junk))
          = clone (some (serialize A ++ junk)) ∧
      combine (some (serialize [] ++ jE)) (some (serialize A ++ junk))
          = clone (some (serialize A ++ junk)) := by
  refine ⟨by simp [combine], ?_⟩
  intro A hA junk jE
  have hc := clone_serialize A hA junk
  refine ⟨?_, ?_, ?_, ?_⟩
  · rw [combine_rhs_null A hA junk, hc]
  · rw [combine_serialize A [] hA validRecords_nil junk jE, List.append_nil, hc]
  · rw [combine_lhs_null A hA junk, hc]
  · rw [combine_serialize [] A validRecords_nil hA jE junk, List.nil_append, hc]

/-- Witness for C2 at a concrete one-record buffer. -/
theorem combine_identity_spec_witness :
    ValidRecords [[6]] ∧
      (combine (some (serialize [[6]] ++ [1])) none
          = clone (some (serialize [[6]] ++ [1])) ∧
       combine (some (serialize [[6]] ++ [1])) (some (serialize [] ++ [2]))
          = clone (some (serialize [[6]] ++ [1])) ∧
       combine none (some (serialize [[6]] ++ [1]))
          = clone (some (serialize [[6]] ++ [1])) ∧
       combine (some (serialize [] ++ [2])) (some (serialize [[6]] ++ [1]))
          = clone (some (serialize [[6]] ++ [1]))) :=
  ⟨by decide, combine_identity_spec.2 [[6]] (by decide) [1] [2]⟩

/-! ## Variants and the traits templates -/

/-- The raw PIDL variants the traits template is instantiated at:
ITEMID_CHILD, ITEMIDLIST_RELATIVE and ITEMIDLIST_ABSOLUTE. -/
inductive Variant
  | child
  | relative
  | absolute
deriving DecidableEq, Fintype

/-- traits T combine_type, the type of IDLIST that results from appending
to one of type T: the generic template maps T to itself (so RELATIVE maps
to RELATIVE), the ITEMID_CHILD specialisation maps to ITEMIDLIST_RELATIVE,
and the ITEMIDLIST_ABSOLUTE specialisation maps to itself. -/
def combine_type : Variant → Variant
  | Variant.child => Variant.relative
  | Variant.relative => Variant.relative
  | Variant.absolute => Variant.absolute

/-- traits T is_appendable: true in the generic template and for
ITEMID_CHILD, false in the ITEMIDLIST_ABSOLUTE specialisation. -/
def is_appendable : Variant → Bool
  | Variant.absolute => false
  | _ => true

/-- The combine template at the type level: its enable_if constraint makes
it instantiable only when the right operand type is appendable, and its
return type is the traits combine_pidl_type of the left operand.  none models
the compile-time rejection, before any run-time step. -/
def combineVariant (lhs rhs : Variant) : Option Variant :=
  if is_appendable rhs then some (combine_type lhs) else none

/-! ## Allocator values and the wrapper -/

/-- The two allocation schemes defined in the source: the new/delete test
allocator and the COM task-memory allocator. -/
inductive AllocScheme
  | newdelete
  | cotaskmem
deriving DecidableEq

/-- An allocator value: its scheme and the element type it is bound to
(modelled by a numeric tag), as in the templates newdelete_alloc T and
cotaskmem_alloc T. -/
structure AllocT where
  scheme : AllocScheme
  elem : Nat
deriving DecidableEq

/-- Allocator equality: the source defines, for each scheme, an equality
returning true between any two allocators of that scheme whatever their
element types, and defines no equality across schemes (the spec reads this
as never equal), so two allocator values compare equal exactly when their
schemes agree. -/
def allocEq (a b : AllocT) : Bool := a.scheme = b.scheme

/-- The state of a basic_pidl wrapper: the owned buffer m_pidl and the
allocator value m_allocator. -/
structure Wrapper where
  m_pidl : Buf
  m_allocator : AllocT
deriving DecidableEq

/-- basic_pidl::swap: when the two allocators compare equal, exchange the
internal pointers (std::swap on m_pidl only, no allocation); otherwise run
the three-step copy exchange of the source — a temporary copy of self, then
self = other, then other = temp — where copy construction and assignment
each clone their source (copy-and-swap), so the final buffers are a clone
of the other buffer and a clone of the temporary clone of the own buffer. -/
def swapW (x y : Wrapper) : Wrapper × Wrapper :=
  if allocEq x.m_allocator y.m_allocator then
    (⟨y.m_pidl, x.m_allocator⟩, ⟨x.m_pidl, y.m_allocator⟩)
  else
    (⟨clone y.m_pidl, x.m_allocator⟩, ⟨clone (clone x.m_pidl), y.m_allocator⟩)

/-- A buffer that is null or exactly a serialised record list, with no
junk after the terminator. -/
def ExactBuf (b : Buf) : Prop :=
  b = none ∨ ∃ A, ValidRecords A ∧ b = some (serialize A)

/-- clone is the identity on exact buffers. -/
theorem clone_exact (b : Buf) (h : ExactBuf b) : clone b = b := by
  rcases h with h | ⟨A, hA, h⟩
  · rw [h]; rfl
  · rw [h]
    have := clone_serialize A hA []
    rwa [List.append_nil] at this

/-- clone preserves exactness. -/
theorem exact_clone (b : Buf) (h : ExactBuf b) : ExactBuf (clone b) := by
  rw [clone_exact b h]; exact h

/-! ## Claim theorems about variants and swap -/

/-- C4 counterexample: the claim predicts that a Child right operand always
yields a Relative result and that combining two same-variant appendable
operands yields that variant; the code computes the result type from the
traits of the LEFT operand, so an Absolute left with a Child right yields
Absolute, and Child with Child yields Relative rather than Child. -/
theorem combine_variant_claim_counterexample :
    combineVariant Variant.absolute Variant.child = some Variant.absolute ∧
    combineVariant Variant.absolute Variant.child ≠ some Variant.relative ∧
    combineVariant Variant.child Variant.child = some Variant.relative ∧
    combineVariant Variant.child Variant.child ≠ some Variant.child := by
  decide

/-- C4 amended: the result variant of a combine is the combine type of
the left operand — Relative for a Child or Relative left operand, Absolute for
an Absolute left operand — for every appendable right operand; in
particular combining two Relative operands yields Relative, and a Child
right operand yields Relative only when the left operand is Child or
Relative. -/
theorem combine_variant_lhs_determined :
    (∀ lhs rhs, is_appendable rhs = true →
      combineVariant lhs rhs = some (combine_type lhs)) ∧
    combine_type Variant.child = Variant.relative ∧
    combine_type Variant.relative = Variant.relative ∧
    combine_type Variant.absolute = Variant.absolute ∧
    combineVariant Variant.relative Variant.relative
      = some Variant.relative ∧
    combineVariant Variant.child Variant.child = some Variant.relative ∧
    combineVariant Variant.relative Variant.child
      = some Variant.relative := by
  refine ⟨?_, rfl, rfl, rfl, rfl, rfl, rfl⟩
  intro lhs rhs h
  simp [combineVariant, h]

/-- Witness for the amended C4 at concrete variants. -/
theorem combine_variant_lhs_determined_witness :
    is_appendable Variant.child = true ∧
      combineVariant Variant.absolute Variant.child
        = some (combine_type Variant.absolute) :=
  ⟨by decide,
    combine_variant_lhs_determined.1 Variant.absolute Variant.child
      (by decide)⟩

/-- C5: the combine template is instantiable exactly when the right
traits of the right operand report it appendable; the Absolute specialisation is not
appendable, so an Absolute right operand is rejected at the type level
(before anything runs), while Child and Relative right operands are always
accepted. -/
theorem combine_absolute_rhs_rejected :
    (∀ lhs rhs, (combineVariant lhs rhs).isSome = is_appendable rhs) ∧
    is_appendable Variant.absolute = false ∧
    (∀ lhs, combineVariant lhs Variant.absolute = none) ∧
    (∀ lhs, (combineVariant lhs Variant.child).isSome = true ∧
      (combineVariant lhs Variant.relative).isSome = true) := by
  decide

/-- C7: allocator equality holds between any two allocators of one scheme
whatever their element types and never across schemes; swap exchanges the
two buffers in place when the allocators compare equal and otherwise runs
the clone-based three-step exchange; in both cases swapping twice restores
both wrappers exactly, given that the owned buffers are exact well-formed
buffers. -/
theorem swap_spec :
    (∀ s e1 e2, allocEq ⟨s, e1⟩ ⟨s, e2⟩ = true) ∧
    (∀ a b : AllocT, a.scheme ≠ b.scheme → allocEq a b = false) ∧
    (∀ x y : Wrapper, allocEq x.m_allocator y.m_allocator = true →
      swapW x y = (⟨y.m_pidl, x.m_allocator⟩, ⟨x.m_pidl, y.m_allocator⟩)) ∧
    (∀ x y : Wrapper, allocEq x.m_allocator y.m_allocator = false →
      swapW x y = (⟨clone y.m_pidl, x.m_allocator⟩,
                   ⟨clone (clone x.m_pidl), y.m_allocator⟩)) ∧
    (∀ x y : Wrapper, ExactBuf x.m_pidl → ExactBuf y.m_pidl →
      swapW (swapW x y).1 (swapW x y).2 = (x, y)) := by
  refine ⟨?_, ?_, ?_, ?_, ?_⟩
  · intro s e1 e2
    simp [allocEq]
  · intro a b h
    simp [allocEq, h]
  · intro x y h
    simp [swapW, h]
  · intro x y h
    simp [swapW, h]
  · intro x y hx hy
    by_cases h : allocEq x.m_allocator y.m_allocator = true
    · simp [swapW, h]
    · simp only [Bool.not_eq_true] at h
      have h1 : swapW x y = (⟨clone y.m_pidl, x.m_allocator⟩,
          ⟨clone (clone x.m_pidl), y.m_allocator⟩) := by
        simp [swapW, h]
      rw [h1]
      have h2 : swapW ⟨clone y.m_pidl, x.m_allocator⟩
          ⟨clone (clone x.m_pidl), y.m_allocator⟩
          = (⟨clone (clone (clone x.m_pidl)), x.m_allocator⟩,
             ⟨clone (clone (clone y.m_pidl)), y.m_allocator⟩) := by
        simp [swapW, h]
      rw [h2]
      rw [clone_exact _ hx, clone_exact _ hx, clone_exact _ hx,
        clone_exact _ hy, clone_exact _ hy, clone_exact _ hy]

/-- Witness for C7: a double swap across differing allocator schemes at
concrete wrappers. -/
theorem swap_spec_witness :
    ExactBuf (Wrapper.mk (some (serialize [[4]]))
        (AllocT.mk AllocScheme.newdelete 0)).m_pidl ∧
    ExactBuf (Wrapper.mk none (AllocT.mk AllocScheme.cotaskmem 1)).m_pidl ∧
    swapW
      (swapW (Wrapper.mk (some (serialize [[4]]))
          (AllocT.mk AllocScheme.newdelete 0))
        (Wrapper.mk none (AllocT.mk AllocScheme.cotaskmem 1))).1
      (swapW (Wrapper.mk (some (serialize [[4]]))
          (AllocT.mk AllocScheme.newdelete 0))
        (Wrapper.mk none (AllocT.mk AllocScheme.cotaskmem 1))).2
      = (Wrapper.mk (some (serialize [[4]]))
          (AllocT.mk AllocScheme.newdelete 0),
         Wrapper.mk none (AllocT.mk AllocScheme.cotaskmem 1)) :=
  ⟨Or.inr ⟨[[4]], by decide, rfl⟩, Or.inl rfl,
    swap_spec.2.2.2.2 _ _ (Or.inr ⟨[[4]], by decide, rfl⟩) (Or.inl rfl)⟩

/-! ## Assignment with a fallible allocator -/

/-- raw_pidl::clone through a fallible allocator: a NULL source clones to
NULL before any allocation is attempted; otherwise allocate is called and,
when the allocator is out of memory, the bad_alloc failure propagates
instead of producing a buffer. -/
def cloneE (allocOk : Bool) (b : Buf) : Except Unit Buf :=
  match b with
  | none => Except.ok none
  | some bs =>
    if allocOk then Except.ok (clone (some bs)) else Except.error ()

/-- basic_pidl::operator= from a wrapper or a raw buffer: first construct a
local copy by cloning the source, and only if that succeeds swap the copy
into self; a clone failure propagates before self is touched.  The local
copy carries a default-constructed allocator of the same type as self, so
the installing swap takes the pointer-exchange path. -/
def opAssign (allocOk : Bool) (dst : Wrapper) (src : Buf) :
    Except Unit Wrapper :=
  match cloneE allocOk src with
  | Except.error e => Except.error e
  | Except.ok b => Except.ok (swapW dst ⟨b, dst.m_allocator⟩).1

/-- The destination state the caller observes after an assignment: the new
wrapper when the assignment returned, the untouched original when the
failure propagated past it. -/
def assignResult (allocOk : Bool) (dst : Wrapper) (src : Buf) : Wrapper :=
  match opAssign allocOk dst src with
  | Except.error _ => dst
  | Except.ok w => w

/-- C8: with a working allocator, assignment installs a fresh deep clone of
the source buffer (copy-then-swap) and keeps the destination allocator;
when allocation fails while cloning a non-null source, the failure
propagates to the caller and the destination wrapper is left exactly as it
was, with no partial mutation. -/
theorem assign_strong_safety :
    (∀ (dst : Wrapper) (src : Buf),
      opAssign true dst src = Except.ok ⟨clone src, dst.m_allocator⟩) ∧
    (∀ (dst : Wrapper) (src : Buf), src ≠ none →
      opAssign false dst src = Except.error () ∧
      assignResult false dst src = dst) := by
  constructor
  · intro dst src
    cases src with
    | none => simp [opAssign, cloneE, swapW, allocEq, clone]
    | some bs => simp [opAssign, cloneE, swapW, allocEq]
  · intro dst src h
    cases src with
    | none => exact absurd rfl h
    | some bs =>
      constructor
      · simp [opAssign, cloneE]
      · simp [assignResult, opAssign, cloneE]

/-- Witness for C8: a failed assignment of a concrete non-null buffer into
a concrete wrapper propagates the failure and leaves the wrapper intact. -/
theorem assign_strong_safety_witness :
    some [3, 0, 1, 0, 0] ≠ (none : Buf) ∧
      (opAssign false
          (Wrapper.mk (some (serialize [[9]]))
            (AllocT.mk AllocScheme.newdelete 0))
          (some [3, 0, 1, 0, 0]) = Except.error () ∧
       assignResult false
          (Wrapper.mk (some (serialize [[9]]))
            (AllocT.mk AllocScheme.newdelete 0))
          (some [3, 0, 1, 0, 0])
          = Wrapper.mk (some (serialize [[9]]))
              (AllocT.mk AllocScheme.newdelete 0)) :=
  ⟨by decide,
    assign_strong_safety.2
      (Wrapper.mk (some (serialize [[9]])) (AllocT.mk AllocScheme.newdelete 0))
      (some [3, 0, 1, 0, 0]) (by decide)⟩

/-! ## The StorageMedium wrapper -/

/-- The STGMEDIUM held by a StorageMedium, opaque here. -/
structure StgMedium where
  tymed : Nat
deriving DecidableEq

/-- The StorageMedium wrapper state: the owned m_medium. -/
structure StorageMedium where
  m_medium : StgMedium
deriving DecidableEq

/-- StorageMedium::operator=(StorageMedium medium): the body swaps m_medium
with the by-value argument and then falls off the end; although the
declared return type is StorageMedium&, no return statement exists, so the
value the assignment expression yields is absent, modelled as none. -/
def StorageMedium.assignOp (self arg : StorageMedium) :
    (StorageMedium × StorageMedium) × Option StorageMedium :=
  ((⟨arg.m_medium⟩, ⟨self.m_medium⟩), none)

/-- C9: copy assignment of StorageMedium swaps the state of the argument into
the object but yields no usable result for an assignment chain: the
returned value is absent for every pair of states. -/
theorem storage_medium_assign_spec :
    ∀ self arg : StorageMedium,
      (StorageMedium.assignOp self arg).1.1 = ⟨arg.m_medium⟩ ∧
      (StorageMedium.assignOp self arg).1.2 = ⟨self.m_medium⟩ ∧
      (StorageMedium.assignOp self arg).2 = none := by
  intro self arg
  exact ⟨rfl, rfl, rfl⟩

/-! ## A small heap model: freshness of combine results -/

/-- Find the bytes stored at an address among allocated blocks. -/
def lookupMem : List (Nat × Bytes) → Nat → Option Bytes
  | [], _ => none
  | kv :: rest, a => if kv.1 = a then some kv.2 else lookupMem rest a

/-- A heap of allocated blocks: a bump pointer for fresh addresses and the
live blocks keyed by address. -/
structure Heap where
  next : Nat
  mem : List (Nat × Bytes)

/-- Read the block at an address, if any. -/
def Heap.read (h : Heap) (a : Nat) : Option Bytes :=
  lookupMem h.mem a

/-- Allocate a fresh block holding the given bytes. -/
def Heap.alloc (h : Heap) (bytes : Bytes) : Nat × Heap :=
  (h.next, ⟨h.next + 1, (h.next, bytes) :: h.mem⟩)

/-- A heap is well formed when every live block sits below the bump
pointer. -/
def Heap.wf (h : Heap) : Prop :=
  ∀ kv ∈ h.mem, kv.1 < h.next

/-- Dereference a possibly-null PIDL pointer into the heap. -/
def derefBuf (h : Heap) (p : Option Nat) : Buf :=
  match p with
  | none => none
  | some a => h.read a

/-- raw_pidl::combine at the heap level: read the bytes both operands point
at, run the byte-level combine, and when it yields a buffer place it in a
freshly allocated block; the operand blocks are read, never written. -/
def combineH (h : Heap) (lhs rhs : Option Nat) : Option Nat × Heap :=
  match combine (derefBuf h lhs) (derefBuf h rhs) with
  | none => (none, h)
  | some bytes =>
    let r := h.alloc bytes
    (some r.1, r.2)

/-- operator+ hands the raw combine result to the new wrapper by attach,
without cloning: the joined wrapper owns exactly the block combine
allocated. -/
def joinH (h : Heap) (lhs rhs : Option Nat) : Option Nat × Heap :=
  combineH h lhs rhs

/-- A successful lookup means some live block carries the address. -/
theorem lookupMem_isSome_mem :
    ∀ (l : List (Nat × Bytes)) (a : Nat),
      (lookupMem l a).isSome = true → ∃ kv ∈ l, kv.1 = a := by
  intro l
  induction l with
  | nil => intro a h; simp [lookupMem] at h
  | cons kv rest ih =>
    intro a h
    by_cases hk : kv.1 = a
    · exact ⟨kv, by simp, hk⟩
    · simp only [lookupMem, if_neg hk] at h
      obtain ⟨kv2, hmem, hkey⟩ := ih a h
      exact ⟨kv2, by simp [hmem], hkey⟩

/-- In a well-formed heap, a readable address lies below the bump pointer. -/
theorem read_lt_next (h : Heap) (hwf : h.wf) (a : Nat)
    (hr : (h.read a).isSome = true) : a < h.next := by
  obtain ⟨kv, hmem, hkey⟩ := lookupMem_isSome_mem h.mem a hr
  have := hwf kv hmem
  omega

/-- C10: a non-null combine result is a freshly allocated block, distinct
from both operand pointers and from every live block; every block that was
live before, the operands included, still reads the same bytes afterwards;
and the join operator adopts exactly that fresh block without cloning. -/
theorem combine_no_alias :
    ∀ (h : Heap) (lhs rhs : Option Nat), h.wf →
      (∀ a, lhs = some a → (h.read a).isSome = true) →
      (∀ a, rhs = some a → (h.read a).isSome = true) →
      (∀ r, (combineH h lhs rhs).1 = some r →
        lhs ≠ some r ∧ rhs ≠ some r ∧ ∀ kv ∈ h.mem, kv.1 ≠ r) ∧
      (∀ a, a < h.next → (combineH h lhs rhs).2.read a = h.read a) ∧
      joinH h lhs rhs = combineH h lhs rhs := by
  intro h lhs rhs hwf hlhs hrhs
  cases hc : combine (derefBuf h lhs) (derefBuf h rhs) with
  | none =>
    refine ⟨?_, ?_, rfl⟩
    · intro r hr
      simp [combineH, hc] at hr
    · intro a _
      simp [combineH, hc]
  | some bytes =>
    refine ⟨?_, ?_, rfl⟩
    · intro r hr
      simp only [combineH, hc, Heap.alloc, Option.some_inj] at hr
      subst hr
      refine ⟨?_, ?_, ?_⟩
      · intro hl
        have := read_lt_next h hwf h.next (hlhs h.next hl)
        omega
      · intro hl
        have := read_lt_next h hwf h.next (hrhs h.next hl)
        omega
      · intro kv hmem
        have := hwf kv hmem
        omega
    · intro a ha
      simp only [combineH, hc, Heap.alloc]
      simp only [Heap.read, lookupMem]
      rw [if_neg (by omega)]

/-- Witness for C10: a concrete two-block heap whose blocks hold one-record
buffers, combined through pointers to both blocks. -/
theorem combine_no_alias_witness :
    (∀ kv ∈ Heap.mem ⟨2, [(0, serialize [[1]]), (1, serialize [[2]])]⟩,
      kv.1 < Heap.next ⟨2, [(0, serialize [[1]]), (1, serialize [[2]])]⟩) ∧
      ((∀ r, (combineH ⟨2, [(0, serialize [[1]]), (1, serialize [[2]])]⟩
            (some 0) (some 1)).1 = some r →
          (some 0 : Option Nat) ≠ some r ∧ (some 1 : Option Nat) ≠ some r ∧
          ∀ kv ∈ [((0 : Nat), serialize [[1]]), (1, serialize [[2]])],
            kv.1 ≠ r) ∧
       (∀ a, a < 2 →
          (combineH ⟨2, [(0, serialize [[1]]), (1, serialize [[2]])]⟩
              (some 0) (some 1)).2.read a
            = Heap.read ⟨2, [(0, serialize [[1]]), (1, serialize [[2]])]⟩ a) ∧
       joinH ⟨2, [(0, serialize [[1]]), (1, serialize [[2]])]⟩
           (some 0) (some 1)
         = combineH ⟨2, [(0, serialize [[1]]), (1, serialize [[2]])]⟩
             (some 0) (some 1)) :=
  ⟨by decide,
    combine_no_alias ⟨2, [(0, serialize [[1]]), (1, serialize [[2]])]⟩
      (some 0) (some 1) (by unfold Heap.wf; decide)
      (by intro a ha; injection ha with h1; subst h1; decide)
      (by intro a ha; injection ha with h1; subst h1; decide)⟩

end SwishPidl
